import Mathlib

/-!
Shallow embedding of the core logic of workouttest11.py (class WorkoutPlanner):
load calculation, PR tracking, the muscle fatigue/recovery engine and the
plan-structure operations.

Modelling conventions:
* Calendar dates are integer day numbers, counted from 2000-01-01, so the
  ISO date string 2000-01-01 corresponds to day 0 and date subtraction
  (d1 - d2).days is plain integer subtraction.
* Python float arithmetic is modelled exactly over the rationals (the
  constants in the source, e.g. 0.1, are short decimals).
* The text fields sets, reps and weight of an exercise entry are only ever
  observed by the source through int(...) / float(...) parses, so each
  field is represented by its parse result: Option Int for sets and reps
  (result of int(...)), Option Rat for weight (result of float(...));
  none models a string on which the parse raises ValueError.
* Python dicts keyed by strings or muscles are insertion-ordered association
  lists; aset mirrors dict assignment (update in place, or append for a
  new key) and alookup mirrors dict indexing and membership.
-/

/-- Calendar dates as integer day numbers counted from 2000-01-01. -/
abbrev Date := Int

/-- Day number of the fallback ISO date string 2000-01-01. -/
def epoch2000 : Date := 0

/-- Muscle names: the closed set of 15 keys used by recovery_rates,
initialize_muscle_engagement and engagement_map in the source. -/
inductive Muscle where
  | chest | shoulders | biceps | triceps
  | abs | obliques | quads | calves
  | trapezius | back | lats | glutes | hamstrings
  | forearms | rearDelts
  deriving DecidableEq, Repr

/-- Exercise entry of a day, a dict with keys exercise, sets, reps and
weight; the three numeric text fields are represented by their parse
results (see the module docstring). -/
structure Exercise where
  exercise : String
  sets : Option Int
  reps : Option Int
  weight : Option ℚ
  deriving DecidableEq, Repr

/-- Workout day, a dict with keys day (the label), date (optional ISO date)
and exercises; date = none models a day dict with no date key. -/
structure Day where
  day : String
  date : Option Date
  exercises : List Exercise
  deriving DecidableEq, Repr

/-- Model of self.workouts: a list of weeks, each week a list of days. -/
abbrev Plan := List (List Day)

/-- One side of a PR record, a dict with keys value and date; date = none is
the initial Python None. -/
structure PRSide (α : Type) where
  value : α
  date : Option Date
  deriving DecidableEq, Repr

/-- One history entry, a dict with keys date, weight and reps. -/
structure HistEntry where
  date : Date
  weight : ℚ
  reps : Int
  deriving DecidableEq, Repr

/-- Per-exercise PR record stored in self.prs. -/
structure PRData where
  weight : PRSide ℚ
  reps : PRSide Int
  history : List HistEntry
  deriving DecidableEq, Repr

/-- Fresh PR record created for an unseen exercise name. -/
def prDefault : PRData := ⟨⟨0, none⟩, ⟨0, none⟩, []⟩

/-- Model of self.prs: insertion-ordered dict, exercise name to PR record. -/
abbrev PRMap := List (String × PRData)

/-- Per-muscle state stored in self.muscle_recovery, a dict with keys
fatigue and last_workout. -/
structure MuscleState where
  fatigue : ℚ
  last_workout : Option Date
  deriving DecidableEq, Repr

/-- Model of self.muscle_recovery: insertion-ordered dict, muscle to state. -/
abbrev MuscleMap := List (Muscle × MuscleState)

section AssocMap

variable {κ β : Type} [DecidableEq κ]

/-- First-match lookup in an insertion-ordered association list (Python
dict indexing / dict.get). -/
def alookup : List (κ × β) → κ → Option β
  | [], _ => none
  | (k, v) :: rest, n => if k = n then some v else alookup rest n

/-- Dict assignment d[k] = v: replace in place if the key is present,
append a new binding otherwise. -/
def aset : List (κ × β) → κ → β → List (κ × β)
  | [], n, v => [(n, v)]
  | (k, w) :: rest, n, v => if k = n then (n, v) :: rest else (k, w) :: aset rest n v

/-- Update every value in place (iterating over dict items while writing
values back). -/
def mapVals (g : κ → β → β) (m : List (κ × β)) : List (κ × β) :=
  m.map (fun kv => (kv.1, g kv.1 kv.2))

end AssocMap

/-- Mirrors WorkoutPlanner.calculate_load: int(sets) * int(reps) *
float(weight), and 0 if any parse raises ValueError. -/
def calculate_load (ex : Exercise) : ℚ :=
  match ex.sets, ex.reps, ex.weight with
  | some s, some r, some w => (s : ℚ) * (r : ℚ) * w
  | _, _, _ => 0

/-- PR-record transformation applied by update_prs once weight and reps have
parsed: weight PR on strictly greater weight, then reps PR when the weight
equals the (possibly just updated) best weight and the reps beat the stored
reps PR, then an unconditional history append. -/
def applyPR (cur : Date) (w : ℚ) (r : Int) (pd : PRData) : PRData :=
  let pd1 := if pd.weight.value < w then { pd with weight := ⟨w, some cur⟩ } else pd
  let pd2 := if w = pd1.weight.value ∧ pd1.reps.value < r then { pd1 with reps := ⟨r, some cur⟩ } else pd1
  { pd2 with history := pd2.history ++ [⟨cur, w, r⟩] }

/-- PR record currently associated with a name, or the fresh default that
update_prs would create for an unseen name. -/
def prOf (prs : PRMap) (n : String) : PRData :=
  (alookup prs n).getD prDefault

/-- Mirrors WorkoutPlanner.update_prs with self.current_date passed as cur:
a no-op when float(weight) or int(reps) raises, otherwise get-or-create the
record and apply the PR update. -/
def update_prs (cur : Date) (prs : PRMap) (ex : Exercise) : PRMap :=
  match ex.weight, ex.reps with
  | some w, some r => aset prs ex.exercise (applyPR cur w r (prOf prs ex.exercise))
  | _, _ => prs

/-- Stored weight-PR value for a name (0 for an unseen name, as in the
freshly created record). -/
def weightPRval (prs : PRMap) (n : String) : ℚ :=
  (prOf prs n).weight.value

/-- Stored weight-PR date for a name. -/
def weightPRdate (prs : PRMap) (n : String) : Option Date :=
  (prOf prs n).weight.date

/-- Stored reps-PR value for a name. -/
def repsPRval (prs : PRMap) (n : String) : Int :=
  (prOf prs n).reps.value

/-- Stored reps-PR date for a name. -/
def repsPRdate (prs : PRMap) (n : String) : Option Date :=
  (prOf prs n).reps.date

/-- Run a sequence of record calls, each with its own date, left to right. -/
def runRecords (calls : List (Date × Exercise)) (prs : PRMap) : PRMap :=
  calls.foldl (fun prs c => update_prs c.1 prs c.2) prs

/-- Mirrors WorkoutPlanner.initialize_prs: a fresh default record for every
exercise name of the plan, in first-occurrence order. -/
def initialize_prs (plan : Plan) : PRMap :=
  plan.foldl
    (fun prs week => week.foldl
      (fun prs day => day.exercises.foldl
        (fun prs ex =>
          if (alookup prs ex.exercise).isSome then prs
          else prs ++ [(ex.exercise, prDefault)])
        prs)
      prs)
    []

/-- Mutable planner state touched by the PR and plan-structure operations:
self.workouts, self.prs, self.current_week (1-based), self.current_day
(0-based) and self.current_date. -/
structure Planner where
  workouts : Plan
  prs : PRMap
  current_week : Nat
  current_day : Nat
  current_date : Date
  deriving DecidableEq, Repr

/-- One day of the replay loop of recalculate_prs: the running date becomes
day.get(date, current_date), then update_prs runs for each exercise of the
day. -/
def replayDay (acc : Date × PRMap) (d : Day) : Date × PRMap :=
  let cur := d.date.getD acc.1
  (cur, d.exercises.foldl (update_prs cur) acc.2)

/-- One week of the replay loop of recalculate_prs. -/
def replayWeek (acc : Date × PRMap) (week : List Day) : Date × PRMap :=
  week.foldl replayDay acc

/-- Mirrors WorkoutPlanner.recalculate_prs: reset self.prs to
initialize_prs() and replay update_prs over every week and day in plan
order, threading self.current_date through day.get(date, current_date). -/
def recalculate_prs (s : Planner) : Planner :=
  let r := s.workouts.foldl replayWeek (s.current_date, initialize_prs s.workouts)
  { s with prs := r.2, current_date := r.1 }

/-- Replay of one day as the words of the spec describe it: onDate is the
stored date of the day, or the fallback epoch date 2000-01-01. -/
def specRecordDay (prs : PRMap) (d : Day) : PRMap :=
  d.exercises.foldl (update_prs (d.date.getD epoch2000)) prs

/-- Replay of one week as the words of the spec describe it. -/
def specRecordWeek (prs : PRMap) (w : List Day) : PRMap :=
  w.foldl specRecordDay prs

/-- Follows the words of the spec for recompute(plan), to be compared with
recalculate_prs: clear all PR state and replay record for every exercise
across every week and day in plan order, using the stored date of each day,
or the fallback epoch date 2000-01-01, as onDate. -/
def recomputeSpecPRs (plan : Plan) : PRMap :=
  plan.foldl specRecordWeek (initialize_prs plan)

/-- ASCII lowercase of a string, as the Python str.lower method acts on the
exercise names occurring here. -/
def pyLower (s : String) : String :=
  ⟨s.data.map Char.toLower⟩

/-- Whether the first list occurs at the start of the second (helper for the
Python substring test). -/
def beginsWith : List Char → List Char → Bool
  | [], _ => true
  | _ :: _, [] => false
  | a :: as, b :: bs => a = b && beginsWith as bs

/-- Whether the first list occurs contiguously anywhere in the second. -/
def containsSeq (needle : List Char) : List Char → Bool
  | [] => needle.isEmpty
  | b :: bs => beginsWith needle (b :: bs) || containsSeq needle bs

/-- Python substring test: needle in haystack, on strings. -/
def strIn (needle haystack : String) : Bool :=
  containsSeq needle.data haystack.data

/-- Mirrors self.fatigue_threshold = 100. -/
def fatigue_threshold : ℚ := 100

/-- Mirrors self.fatigue_multiplier = 0.1. -/
def fatigue_multiplier : ℚ := 1 / 10

/-- Mirrors self.recovery_rates, as a total function on the closed muscle
set. -/
def recovery_rates : Muscle → ℚ
  | .chest => 15 | .shoulders => 15 | .biceps => 20 | .triceps => 20
  | .abs => 25 | .obliques => 25 | .quads => 15 | .calves => 25
  | .trapezius => 20 | .back => 15 | .lats => 15 | .glutes => 15
  | .hamstrings => 15 | .forearms => 25 | .rearDelts => 20

/-- Mirrors WorkoutPlanner.initialize_muscle_recovery: every muscle of
recovery_rates, in key order, with zero fatigue and no last workout. -/
def initialize_muscle_recovery : MuscleMap :=
  [(.chest, ⟨0, none⟩), (.shoulders, ⟨0, none⟩), (.biceps, ⟨0, none⟩),
   (.triceps, ⟨0, none⟩), (.abs, ⟨0, none⟩), (.obliques, ⟨0, none⟩),
   (.quads, ⟨0, none⟩), (.calves, ⟨0, none⟩), (.trapezius, ⟨0, none⟩),
   (.back, ⟨0, none⟩), (.lats, ⟨0, none⟩), (.glutes, ⟨0, none⟩),
   (.hamstrings, ⟨0, none⟩), (.forearms, ⟨0, none⟩), (.rearDelts, ⟨0, none⟩)]

/-- Mirrors self.engagement_map, in source (insertion) order; each value
keeps its muscle keys in source order. -/
def engagement_map : List (String × List (Muscle × ℚ)) :=
  [("bench press", [(.chest, 8/10), (.triceps, 2/10), (.shoulders, 2/10)]),
   ("incline db press", [(.chest, 7/10), (.shoulders, 3/10), (.triceps, 2/10)]),
   ("db bench press", [(.chest, 8/10), (.triceps, 2/10), (.shoulders, 2/10)]),
   ("decline bench press", [(.chest, 8/10), (.triceps, 2/10), (.shoulders, 2/10)]),
   ("pec fly machine", [(.chest, 1)]),
   ("cable chest fly", [(.chest, 1)]),
   ("dip", [(.chest, 6/10), (.triceps, 4/10)]),
   ("shoulder press", [(.shoulders, 8/10), (.triceps, 2/10)]),
   ("db lateral raise", [(.shoulders, 1)]),
   ("face pull", [(.shoulders, 6/10), (.trapezius, 4/10), (.rearDelts, 3/10)]),
   ("overhead press", [(.shoulders, 8/10), (.triceps, 2/10)]),
   ("front raise", [(.shoulders, 1)]),
   ("lat raises", [(.shoulders, 1)]),
   ("rear delt fly", [(.shoulders, 1)]),
   ("bicep curl", [(.biceps, 1)]),
   ("hammer curl", [(.biceps, 8/10), (.forearms, 2/10)]),
   ("preacher curl", [(.biceps, 1)]),
   ("cable curl", [(.biceps, 1)]),
   ("ez bar curl", [(.biceps, 9/10), (.forearms, 1/10)]),
   ("skull crushers", [(.triceps, 1)]),
   ("tricep extension", [(.triceps, 1)]),
   ("triceps pushdown", [(.triceps, 1)]),
   ("triceps rope pulldown", [(.triceps, 1)]),
   ("squat", [(.quads, 6/10), (.glutes, 3/10), (.hamstrings, 2/10)]),
   ("back squat", [(.quads, 6/10), (.glutes, 3/10), (.hamstrings, 2/10)]),
   ("front squat", [(.quads, 7/10), (.glutes, 2/10), (.hamstrings, 1/10)]),
   ("leg press", [(.quads, 7/10), (.glutes, 2/10), (.hamstrings, 1/10)]),
   ("hack squat", [(.quads, 8/10), (.glutes, 2/10)]),
   ("bulgarian split squat", [(.quads, 5/10), (.glutes, 3/10), (.hamstrings, 2/10)]),
   ("leg extension", [(.quads, 1)]),
   ("leg curl", [(.hamstrings, 1)]),
   ("romanian deadlift", [(.hamstrings, 6/10), (.glutes, 3/10), (.back, 2/10)]),
   ("prone machine hamstring curl", [(.hamstrings, 1)]),
   ("calf raise", [(.calves, 1)]),
   ("deadlift", [(.back, 5/10), (.glutes, 3/10), (.hamstrings, 3/10), (.trapezius, 2/10), (.forearms, 1/10)]),
   ("deadlift paused", [(.back, 5/10), (.glutes, 3/10), (.hamstrings, 3/10), (.trapezius, 2/10), (.forearms, 1/10)]),
   ("lat pulldown", [(.lats, 8/10), (.biceps, 2/10)]),
   ("pull up", [(.lats, 7/10), (.biceps, 3/10)]),
   ("row", [(.back, 7/10), (.biceps, 3/10)]),
   ("barbell row", [(.back, 7/10), (.biceps, 2/10), (.forearms, 1/10)]),
   ("t bar row", [(.back, 8/10), (.biceps, 2/10)]),
   ("seated cable row", [(.back, 7/10), (.biceps, 2/10), (.forearms, 1/10)]),
   ("back extension", [(.back, 8/10), (.glutes, 2/10)]),
   ("crunch", [(.abs, 1)]),
   ("plank", [(.abs, 7/10), (.obliques, 3/10)]),
   ("reverse fly", [(.rearDelts, 8/10), (.trapezius, 2/10)]),
   ("bent over lateral raise", [(.rearDelts, 9/10), (.trapezius, 1/10)])]

/-- First engagement-map key, in table order, that is a substring of the
lowercased exercise name (the generator expression with next(...) in
engage_muscles). -/
def firstMatch (name : String) : Option (String × List (Muscle × ℚ)) :=
  engagement_map.find? (fun kv => strIn kv.1 (pyLower name))

/-- Fatigue currently recorded for a muscle (0 when the muscle is not in the
map, matching the freshly created state). -/
def muscleFatigue (mr : MuscleMap) (m : Muscle) : ℚ :=
  ((alookup mr m).map MuscleState.fatigue).getD 0

/-- Inner loop body of engage_muscles for one (muscle, factor) pair: create
the muscle state if missing, then add the capped fatigue increase and stamp
the workout date. -/
def engageMuscle (d : Date) (load : ℚ) (mr : MuscleMap) (mf : Muscle × ℚ) : MuscleMap :=
  let mr1 := match alookup mr mf.1 with
    | none => aset mr mf.1 ⟨0, some d⟩
    | some _ => mr
  let inc := min (load * mf.2 * fatigue_multiplier / 100) fatigue_threshold
  aset mr1 mf.1 ⟨min fatigue_threshold (muscleFatigue mr1 mf.1 + inc), some d⟩

/-- Mirrors WorkoutPlanner.engage_muscles: first substring match against the
engagement map on the lowercased exercise name; if a key matched and the
load is positive, engage each of its muscles in order, else leave the map
unchanged. -/
def engage_muscles (mr : MuscleMap) (ex : Exercise) (d : Date) : MuscleMap :=
  let load := calculate_load ex
  match firstMatch ex.exercise with
  | some kv => if 0 < load then kv.2.foldl (engageMuscle d load) mr else mr
  | none => mr

/-- Per-muscle body of calculate_current_fatigue: elapsed days clamped at 0,
linear recovery, fatigue clamped at 0 from below. -/
def decayMuscle (cur : Date) (m : Muscle) (st : MuscleState) : MuscleState :=
  match st.last_workout with
  | some last =>
    let days : Int := max 0 (cur - last)
    ⟨max 0 (st.fatigue - recovery_rates m * (days : ℚ)), st.last_workout⟩
  | none => st

/-- Mirrors WorkoutPlanner.calculate_current_fatigue with self.current_date
passed as cur. -/
def calculate_current_fatigue (cur : Date) (mr : MuscleMap) : MuscleMap :=
  mapVals (decayMuscle cur) mr

/-- Per-muscle body of update_muscle_recovery: identical to decayMuscle
except that the elapsed days are NOT clamped at 0. -/
def recoverMuscle (cur : Date) (m : Muscle) (st : MuscleState) : MuscleState :=
  match st.last_workout with
  | some last =>
    let days : Int := cur - last
    ⟨max (st.fatigue - recovery_rates m * (days : ℚ)) 0, st.last_workout⟩
  | none => st

/-- Mirrors WorkoutPlanner.update_muscle_recovery with self.current_date
passed as cur. -/
def update_muscle_recovery (cur : Date) (mr : MuscleMap) : MuscleMap :=
  mapVals (recoverMuscle cur) mr

/-- One step of the fatigue engine: an engage_muscles call or a (clamped)
decay via calculate_current_fatigue. -/
inductive FatigueOp where
  | engage (ex : Exercise) (d : Date)
  | decay (d : Date)
  deriving Repr

/-- Run a sequence of fatigue-engine operations left to right. -/
def runOps : List FatigueOp → MuscleMap → MuscleMap
  | [], mr => mr
  | .engage ex d :: ops, mr => runOps ops (engage_muscles mr ex d)
  | .decay d :: ops, mr => runOps ops (calculate_current_fatigue d mr)

/-- Bounds invariant of the fatigue engine: every tracked muscle carries a
fatigue value in the closed interval from 0 to fatigue_threshold. -/
def MuscleInv (mr : MuscleMap) : Prop :=
  ∀ m st, alookup mr m = some st → 0 ≤ st.fatigue ∧ st.fatigue ≤ fatigue_threshold

/-- Every day of every week of the plan carries a stored date. -/
def AllDated (p : Plan) : Prop :=
  ∀ w ∈ p, ∀ d ∈ w, d.date.isSome = true

instance (p : Plan) : Decidable (AllDated p) := by
  unfold AllDated
  infer_instance

/-- Inner loop of renumber_all_days: relabel the days of one week with
consecutive numbers starting at n, returning the next unused number. -/
def renumberDays : Nat → List Day → Nat × List Day
  | n, [] => (n, [])
  | n, d :: ds =>
    let r := renumberDays (n + 1) ds
    (r.1, { d with day := "Day " ++ toString n } :: r.2)

/-- Outer loop of renumber_all_days over the weeks. -/
def renumberWeeks : Nat → Plan → Plan
  | _, [] => []
  | n, w :: ws =>
    let r := renumberDays n w
    r.2 :: renumberWeeks r.1 ws

/-- Mirrors WorkoutPlanner.renumber_all_days: relabel every day in plan
traversal order starting at 1. -/
def renumber_all_days (p : Plan) : Plan :=
  renumberWeeks 1 p

/-- Structural failures the day operations abort with (surfaced as
messagebox.showwarning in the source). -/
inductive PlanError where
  | capacityError
  | minimumDaysError
  deriving DecidableEq, Repr

/-- Day list of the current week, the expression
self.workouts[self.current_week - 1] of the source. -/
def currentWeekDays (s : Planner) : List Day :=
  s.workouts.getD (s.current_week - 1) []

/-- Mirrors WorkoutPlanner.add_day with date.today() passed as today: abort
on a week that already holds 7 days; otherwise append a fresh day labelled
with the next sequential number, dated today plus (number - 1) days, point
current_day at it and renumber all days. -/
def add_day (s : Planner) (today : Date) : Option PlanError × Planner :=
  let cwd := currentWeekDays s
  if 7 ≤ cwd.length then (some .capacityError, s)
  else
    let n := ((s.workouts.take (s.current_week - 1)).map List.length).sum + cwd.length + 1
    let newDay : Day := ⟨"Day " ++ toString n, some (today + ((n : Int) - 1)), []⟩
    let ws := s.workouts.set (s.current_week - 1) (cwd ++ [newDay])
    (none, { s with workouts := renumber_all_days ws, current_day := cwd.length })

/-- Mirrors WorkoutPlanner.remove_day with the dialog choice passed as idx:
abort on a week holding only one day; otherwise remove the day at idx,
renumber, and clamp current_day to the new last index if it overflowed. -/
def remove_day (s : Planner) (idx : Nat) : Option PlanError × Planner :=
  let cwd := currentWeekDays s
  if cwd.length ≤ 1 then (some .minimumDaysError, s)
  else
    let cwd1 := cwd.eraseIdx idx
    let ws := s.workouts.set (s.current_week - 1) cwd1
    let cd := if cwd1.length ≤ s.current_day then cwd1.length - 1 else s.current_day
    (none, { s with workouts := renumber_all_days ws, current_day := cd })

/-- Argument of restructure_workouts: either an already nested list of weeks
(every element an inner list) or a flat sequence of day dicts. -/
inductive RawWorkouts where
  | nested (ws : Plan)
  | flat (ds : List Day)

/-- Flat-import loop of restructure_workouts: accumulate days into the
current week, emit the week when it reaches 5 days, and emit a final shorter
week if one remains. -/
def chunkWeeks : List Day → List Day → Plan
  | [], week => if week.isEmpty then [] else [week]
  | d :: rest, week =>
    let wk := week ++ [d]
    if wk.length = 5 then wk :: chunkWeeks rest [] else chunkWeeks rest wk

/-- Mirrors WorkoutPlanner.restructure_workouts: an already nested structure
is returned unchanged; a flat sequence is partitioned into weeks of 5
consecutive days (last week possibly shorter). -/
def restructure_workouts : RawWorkouts → Plan
  | .nested ws => ws
  | .flat ds => chunkWeeks ds []

/-- Sample entry: Bench Press, 3 sets of 5 at weight 100. -/
def exBench : Exercise := ⟨"Bench Press", some 3, some 5, some 100⟩

/-- Sample entry whose reps field does not parse as an integer. -/
def exNoParse : Exercise := ⟨"Bench Press", some 3, none, some 100⟩

/-- Sample entry with a very large load, enough to cap fatigue at the
threshold. -/
def exHeavy : Exercise := ⟨"bench press", some 10, some 10, some 10000⟩

/-- Sample entry named x with weight 100 and 5 reps. -/
def exW100 : Exercise := ⟨"x", some 3, some 5, some 100⟩

/-- Sample entry named x with weight 50 and 8 reps. -/
def exW50 : Exercise := ⟨"x", some 3, some 8, some 50⟩

/-- Sample entry named x with weight 60 and 5 reps. -/
def exW60 : Exercise := ⟨"x", some 3, some 5, some 60⟩

/-- Sample day carrying no stored date and no exercises. -/
def blankDay : Day := ⟨"", none, []⟩

/-- Twelve days with no nested week structure (a flat legacy import). -/
def twelveDays : List Day := List.replicate 12 blankDay

/-- Sample planner whose first day has no stored date while a later day has
one, with a current date distinct from both. -/
def sNoDate : Planner :=
  ⟨[[⟨"Day 1", none, [exW100]⟩, ⟨"Day 2", some 17, []⟩]], [], 1, 0, 5⟩

/-- Sample planner with a single dateless day and current date 7. -/
def sUndated : Planner := ⟨[[⟨"Day 1", none, [exW100]⟩]], [], 1, 0, 7⟩

/-- Sample planner in which every day has a stored date. -/
def sDated : Planner :=
  ⟨[[⟨"Day 1", some 3, [exW100]⟩, ⟨"Day 2", some 4, [exW50]⟩]], [], 1, 0, 7⟩

/-- Sample planner whose current week holds exactly 7 days. -/
def sSevenDays : Planner :=
  ⟨[List.replicate 7 blankDay], [], 1, 0, 0⟩

/-- Sample planner whose current week holds exactly 1 day. -/
def sOneDay : Planner :=
  ⟨[[blankDay]], [], 1, 0, 0⟩

/-! Shared lemmas about the association-map model. -/

section AssocLemmas

variable {κ β : Type} [DecidableEq κ]

theorem alookup_aset_self (m : List (κ × β)) (k : κ) (v : β) :
    alookup (aset m k v) k = some v := by
  induction m with
  | nil => simp [aset, alookup]
  | cons kv rest ih =>
    obtain ⟨k0, v0⟩ := kv
    by_cases h : k0 = k
    · subst h; simp [aset, alookup]
    · simp [aset, alookup, h, ih]

theorem alookup_aset_ne (m : List (κ × β)) {k k' : κ} (v : β) (h : k' ≠ k) :
    alookup (aset m k v) k' = alookup m k' := by
  have hk : ¬ k = k' := fun hh => h hh.symm
  induction m with
  | nil => simp only [aset, alookup, if_neg hk]
  | cons kv rest ih =>
    obtain ⟨k0, v0⟩ := kv
    by_cases h0 : k0 = k
    · subst h0
      simp only [aset, if_pos rfl, alookup, if_neg hk]
    · simp only [aset, if_neg h0, alookup]
      by_cases h1 : k0 = k'
      · rw [if_pos h1, if_pos h1]
      · rw [if_neg h1, if_neg h1, ih]

theorem alookup_mem {m : List (κ × β)} {k : κ} {v : β}
    (h : alookup m k = some v) : (k, v) ∈ m := by
  induction m with
  | nil => simp [alookup] at h
  | cons kv rest ih =>
    obtain ⟨k0, v0⟩ := kv
    by_cases h0 : k0 = k
    · subst h0
      have hv : v0 = v := by simpa [alookup] using h
      subst hv
      exact List.mem_cons_self _ _
    · simp only [alookup, if_neg h0] at h
      exact List.mem_cons_of_mem _ (ih h)

theorem alookup_mapVals (g : κ → β → β) (m : List (κ × β)) (k : κ) :
    alookup (mapVals g m) k = (alookup m k).map (g k) := by
  induction m with
  | nil => simp [mapVals, alookup]
  | cons kv rest ih =>
    obtain ⟨k0, v0⟩ := kv
    by_cases h0 : k0 = k
    · subst h0; simp [mapVals, alookup]
    · simp only [mapVals, List.map_cons, alookup, if_neg h0]
      simpa [mapVals] using ih

end AssocLemmas

/-- C9: for every entry, load equals sets * reps * weight exactly when sets
and reps parse as integers and weight parses as a decimal, and is 0 (with no
exception) when any of the three fields fails to parse. -/
theorem calculate_load_spec (ex : Exercise) :
    (∀ s r w, ex.sets = some s → ex.reps = some r → ex.weight = some w →
      calculate_load ex = (s : ℚ) * (r : ℚ) * w) ∧
    ((ex.sets = none ∨ ex.reps = none ∨ ex.weight = none) →
      calculate_load ex = 0) := by
  obtain ⟨n, es, er, ew⟩ := ex
  cases es <;> cases er <;> cases ew <;>
    refine ⟨fun s r w hs hr hw => ?_, fun h => ?_⟩ <;>
      simp_all [calculate_load]

/-- Witness for calculate_load_spec at the Bench Press sample entry. -/
theorem calculate_load_spec_witness :
    exBench.sets = some 3 ∧ exBench.reps = some 5 ∧ exBench.weight = some 100 ∧
    calculate_load exBench = ((3 : Int) : ℚ) * ((5 : Int) : ℚ) * (100 : ℚ) :=
  ⟨rfl, rfl, rfl, (calculate_load_spec exBench).1 3 5 100 rfl rfl rfl⟩

/-- C8: a record call whose weight does not parse as a decimal or whose reps
do not parse as an integer leaves the whole PR state, histories included,
unchanged. -/
theorem update_prs_parse_noop (cur : Date) (prs : PRMap) (ex : Exercise)
    (h : ex.weight = none ∨ ex.reps = none) :
    update_prs cur prs ex = prs := by
  obtain ⟨n, es, er, ew⟩ := ex
  cases er <;> cases ew <;> simp_all [update_prs]

/-- Witness for update_prs_parse_noop at an entry with unparsable reps. -/
theorem update_prs_parse_noop_witness :
    (exNoParse.weight = none ∨ exNoParse.reps = none) ∧
    update_prs 0 [] exNoParse = [] :=
  ⟨Or.inr rfl, update_prs_parse_noop 0 [] exNoParse (Or.inr rfl)⟩

/-- C7: add_day on a week already holding 7 days aborts with capacityError
and leaves the whole planner state unchanged; remove_day on a week holding
only 1 day aborts with minimumDaysError and leaves the whole planner state
unchanged. -/
theorem add_remove_day_abort (s : Planner) (today : Date) (idx : Nat) :
    ((currentWeekDays s).length = 7 →
      add_day s today = (some .capacityError, s)) ∧
    ((currentWeekDays s).length = 1 →
      remove_day s idx = (some .minimumDaysError, s)) := by
  constructor <;> intro h
  · simp only [add_day]
    rw [h]
    simp
  · simp only [remove_day]
    rw [h]
    simp

/-- Witness for add_remove_day_abort on a 7-day week and on a 1-day week. -/
theorem add_remove_day_abort_witness :
    add_day sSevenDays 0 = (some .capacityError, sSevenDays) ∧
    remove_day sOneDay 0 = (some .minimumDaysError, sOneDay) :=
  ⟨(add_remove_day_abort sSevenDays 0 0).1 (by decide),
   (add_remove_day_abort sOneDay 0 0).2 (by decide)⟩

/-- Counterexample to C6 as stated: 12 flat days produce week sizes
[5, 5, 2], which is 2 weeks of 5 days and 1 week of 2 days, 3 weeks in
total, not 4. -/
theorem restructure_twelve_not_four_weeks :
    ((restructure_workouts (.flat twelveDays)).map List.length = [5, 5, 2]) ∧
    (((restructure_workouts (.flat twelveDays)).map List.length).count 5 = 2) ∧
    ((restructure_workouts (.flat twelveDays)).length = 3) ∧
    ¬ ((restructure_workouts (.flat twelveDays)).length = 4) := by
  decide

theorem exists_cons_of_length_succ {α : Type} (l : List α) (n : Nat)
    (h : l.length = n + 1) : ∃ a t, l = a :: t ∧ t.length = n := by
  cases l with
  | nil => simp at h
  | cons a t => exact ⟨a, t, rfl, by simpa using h⟩

/-- C6 amended: restructure on any flat sequence of 12 days yields 2 weeks
of 5 days and 1 week of 2 days (3 weeks total, sizes [5, 5, 2]). -/
theorem restructure_twelve_days_sizes (ds : List Day) (h : ds.length = 12) :
    (restructure_workouts (.flat ds)).map List.length = [5, 5, 2] := by
  obtain ⟨a1, t1, rfl, h1⟩ := exists_cons_of_length_succ ds 11 h
  obtain ⟨a2, t2, rfl, h2⟩ := exists_cons_of_length_succ t1 10 h1
  obtain ⟨a3, t3, rfl, h3⟩ := exists_cons_of_length_succ t2 9 h2
  obtain ⟨a4, t4, rfl, h4⟩ := exists_cons_of_length_succ t3 8 h3
  obtain ⟨a5, t5, rfl, h5⟩ := exists_cons_of_length_succ t4 7 h4
  obtain ⟨a6, t6, rfl, h6⟩ := exists_cons_of_length_succ t5 6 h5
  obtain ⟨a7, t7, rfl, h7⟩ := exists_cons_of_length_succ t6 5 h6
  obtain ⟨a8, t8, rfl, h8⟩ := exists_cons_of_length_succ t7 4 h7
  obtain ⟨a9, t9, rfl, h9⟩ := exists_cons_of_length_succ t8 3 h8
  obtain ⟨a10, t10, rfl, h10⟩ := exists_cons_of_length_succ t9 2 h9
  obtain ⟨a11, t11, rfl, h11⟩ := exists_cons_of_length_succ t10 1 h10
  obtain ⟨a12, t12, rfl, h12⟩ := exists_cons_of_length_succ t11 0 h11
  have ht : t12 = [] := List.length_eq_zero.mp h12
  subst ht
  rfl

/-- Witness for restructure_twelve_days_sizes at a concrete 12-day list. -/
theorem restructure_twelve_days_sizes_witness :
    twelveDays.length = 12 ∧
    (restructure_workouts (.flat twelveDays)).map List.length = [5, 5, 2] :=
  ⟨rfl, restructure_twelve_days_sizes twelveDays rfl⟩

/-! Lemmas describing the observable effect of one PR update. -/

theorem applyPR_weight (cur : Date) (w : ℚ) (r : Int) (pd : PRData) :
    (applyPR cur w r pd).weight =
      if pd.weight.value < w then (⟨w, some cur⟩ : PRSide ℚ) else pd.weight := by
  simp only [applyPR]
  split_ifs <;> rfl

theorem applyPR_reps (cur : Date) (w : ℚ) (r : Int) (pd : PRData) :
    (applyPR cur w r pd).reps =
      if w = (applyPR cur w r pd).weight.value ∧ pd.reps.value < r
        then (⟨r, some cur⟩ : PRSide Int) else pd.reps := by
  rw [applyPR_weight]
  by_cases h1 : pd.weight.value < w
  · simp only [applyPR, if_pos h1]
    by_cases h2 : pd.reps.value < r
    · rw [if_pos ⟨trivial, h2⟩, if_pos ⟨trivial, h2⟩]
    · rw [if_neg (fun hc => h2 hc.2), if_neg (fun hc => h2 hc.2)]
  · simp only [applyPR, if_neg h1]
    by_cases h2 : w = pd.weight.value ∧ pd.reps.value < r
    · rw [if_pos h2, if_pos h2]
    · rw [if_neg h2, if_neg h2]

theorem prOf_update_self (cur : Date) (prs : PRMap) (nm : String)
    (es : Option Int) (w : ℚ) (r : Int) :
    prOf (update_prs cur prs ⟨nm, es, some r, some w⟩) nm =
      applyPR cur w r (prOf prs nm) := by
  simp [update_prs, prOf, alookup_aset_self]

theorem weightPRval_update_of_ne (cur : Date) (prs : PRMap) (ex : Exercise)
    {n : String} (hn : n ≠ ex.exercise) :
    weightPRval (update_prs cur prs ex) n = weightPRval prs n ∧
    repsPRval (update_prs cur prs ex) n = repsPRval prs n := by
  obtain ⟨nm, es, er, ew⟩ := ex
  cases er <;> cases ew <;>
    simp_all [update_prs, weightPRval, repsPRval, prOf, alookup_aset_ne]

theorem weightPRval_update_self (cur : Date) (prs : PRMap) (nm : String)
    (es : Option Int) (w : ℚ) (r : Int) :
    weightPRval (update_prs cur prs ⟨nm, es, some r, some w⟩) nm =
      if weightPRval prs nm < w then w else weightPRval prs nm := by
  simp only [weightPRval, prOf_update_self, applyPR_weight]
  split_ifs <;> rfl

theorem repsPRval_update_self (cur : Date) (prs : PRMap) (nm : String)
    (es : Option Int) (w : ℚ) (r : Int) :
    repsPRval (update_prs cur prs ⟨nm, es, some r, some w⟩) nm =
      if w = weightPRval (update_prs cur prs ⟨nm, es, some r, some w⟩) nm ∧
          repsPRval prs nm < r
        then r else repsPRval prs nm := by
  simp only [repsPRval, weightPRval, prOf_update_self, applyPR_reps]
  split_ifs <;> rfl

theorem weightPRval_mono_step (cur : Date) (prs : PRMap) (ex : Exercise)
    (n : String) :
    weightPRval prs n ≤ weightPRval (update_prs cur prs ex) n := by
  by_cases hn : n = ex.exercise
  · subst hn
    obtain ⟨nm, es, er, ew⟩ := ex
    cases er with
    | none => simp [update_prs]
    | some r =>
      cases ew with
      | none => simp [update_prs]
      | some w =>
        rw [show (⟨nm, es, some r, some w⟩ : Exercise).exercise = nm from rfl,
          weightPRval_update_self cur prs nm es w r]
        split_ifs with hlt
        · exact le_of_lt hlt
        · exact le_refl _
  · rw [(weightPRval_update_of_ne cur prs ex hn).1]

/-- C2: over any sequence of record calls the stored weight PR never
decreases; a single call changes the weight PR only when its parsed weight
strictly exceeds the current best (and then the new best is that weight);
and it changes the reps PR only when its parsed weight equals the current
best weight (as updated by the same call) and its parsed reps strictly
exceed the stored reps PR (and then the new reps PR is that reps count). -/
theorem pr_update_invariants :
    (∀ (calls : List (Date × Exercise)) (prs : PRMap) (n : String),
      weightPRval prs n ≤ weightPRval (runRecords calls prs) n) ∧
    (∀ (cur : Date) (prs : PRMap) (ex : Exercise) (n : String),
      weightPRval (update_prs cur prs ex) n ≠ weightPRval prs n →
        ex.exercise = n ∧ ∃ w r, ex.weight = some w ∧ ex.reps = some r ∧
          weightPRval prs n < w ∧ weightPRval (update_prs cur prs ex) n = w) ∧
    (∀ (cur : Date) (prs : PRMap) (ex : Exercise) (n : String),
      repsPRval (update_prs cur prs ex) n ≠ repsPRval prs n →
        ex.exercise = n ∧ ∃ w r, ex.weight = some w ∧ ex.reps = some r ∧
          w = weightPRval (update_prs cur prs ex) n ∧
          repsPRval prs n < r ∧ repsPRval (update_prs cur prs ex) n = r) := by
  refine ⟨?_, ?_, ?_⟩
  · intro calls
    induction calls with
    | nil => intro prs n; exact le_refl _
    | cons c rest ih =>
      intro prs n
      exact le_trans (weightPRval_mono_step c.1 prs c.2 n) (ih _ n)
  · intro cur prs ex n hne
    by_cases hn : n = ex.exercise
    · obtain ⟨nm, es, er, ew⟩ := ex
      subst hn
      refine ⟨rfl, ?_⟩
      cases er with
      | none => simp [update_prs] at hne
      | some r =>
        cases ew with
        | none => simp [update_prs] at hne
        | some w =>
          refine ⟨w, r, rfl, rfl, ?_⟩
          rw [weightPRval_update_self cur prs n es w r] at hne ⊢
          split_ifs at hne ⊢ with hlt
          · exact ⟨hlt, rfl⟩
          · exact absurd rfl hne
    · exact absurd (weightPRval_update_of_ne cur prs ex hn).1 hne
  · intro cur prs ex n hne
    by_cases hn : n = ex.exercise
    · obtain ⟨nm, es, er, ew⟩ := ex
      subst hn
      refine ⟨rfl, ?_⟩
      cases er with
      | none => simp [update_prs] at hne
      | some r =>
        cases ew with
        | none => simp [update_prs] at hne
        | some w =>
          refine ⟨w, r, rfl, rfl, ?_⟩
          rw [repsPRval_update_self cur prs n es w r] at hne ⊢
          split_ifs at hne ⊢ with hcond
          · exact ⟨hcond.1, hcond.2, rfl⟩
          · exact absurd rfl hne
    · exact absurd (weightPRval_update_of_ne cur prs ex hn).2 hne

/-- Witness for pr_update_invariants: a first record of weight 100 on an
empty PR map changes the weight PR, and the change satisfies the stated
conditions. -/
theorem pr_update_invariants_witness :
    weightPRval (update_prs 0 [] exW100) (exW100.exercise) ≠ weightPRval [] (exW100.exercise) ∧
    (exW100.exercise = exW100.exercise ∧ ∃ w r, exW100.weight = some w ∧
      exW100.reps = some r ∧ weightPRval [] (exW100.exercise) < w ∧
      weightPRval (update_prs 0 [] exW100) (exW100.exercise) = w) :=
  ⟨by decide, pr_update_invariants.2.1 0 [] exW100 (exW100.exercise) (by decide)⟩

/-- C10: when a record call strictly beats the previous best weight, the
weight PR is updated first and the reps condition is then checked against
the new best weight, so the reps PR also updates in the same call exactly
when the parsed reps beat the stored reps-PR value; otherwise the reps PR
keeps its previous value and date, even though that value was achieved at a
strictly lower weight. -/
theorem update_prs_weight_updates_first (cur : Date) (prs : PRMap)
    (ex : Exercise) (w : ℚ) (r : Int)
    (hw : ex.weight = some w) (hr : ex.reps = some r)
    (hgt : weightPRval prs ex.exercise < w) :
    weightPRval (update_prs cur prs ex) ex.exercise = w ∧
    weightPRdate (update_prs cur prs ex) ex.exercise = some cur ∧
    (repsPRval prs ex.exercise < r →
      repsPRval (update_prs cur prs ex) ex.exercise = r ∧
      repsPRdate (update_prs cur prs ex) ex.exercise = some cur) ∧
    (r ≤ repsPRval prs ex.exercise →
      repsPRval (update_prs cur prs ex) ex.exercise = repsPRval prs ex.exercise ∧
      repsPRdate (update_prs cur prs ex) ex.exercise = repsPRdate prs ex.exercise) := by
  obtain ⟨nm, es, er, ew⟩ := ex
  cases hw; cases hr
  rw [show (⟨nm, es, some r, some w⟩ : Exercise).exercise = nm from rfl] at hgt ⊢
  have hgt2 : (prOf prs nm).weight.value < w := hgt
  have hw1 : (applyPR cur w r (prOf prs nm)).weight = ⟨w, some cur⟩ := by
    rw [applyPR_weight, if_pos hgt2]
  have hr1 : (applyPR cur w r (prOf prs nm)).reps =
      if (prOf prs nm).reps.value < r
        then (⟨r, some cur⟩ : PRSide Int) else (prOf prs nm).reps := by
    rw [applyPR_reps, hw1]
    by_cases h2 : (prOf prs nm).reps.value < r
    · rw [if_pos ⟨rfl, h2⟩, if_pos h2]
    · rw [if_neg (fun hc => h2 hc.2), if_neg h2]
  refine ⟨?_, ?_, fun hlt => ?_, fun hle => ?_⟩
  · show (prOf (update_prs cur prs ⟨nm, es, some r, some w⟩) nm).weight.value = w
    rw [prOf_update_self, hw1]
  · show (prOf (update_prs cur prs ⟨nm, es, some r, some w⟩) nm).weight.date = some cur
    rw [prOf_update_self, hw1]
  · have hlt2 : (prOf prs nm).reps.value < r := hlt
    constructor
    · show (prOf (update_prs cur prs ⟨nm, es, some r, some w⟩) nm).reps.value = r
      rw [prOf_update_self, hr1, if_pos hlt2]
    · show (prOf (update_prs cur prs ⟨nm, es, some r, some w⟩) nm).reps.date = some cur
      rw [prOf_update_self, hr1, if_pos hlt2]
  · have hle2 : ¬ (prOf prs nm).reps.value < r := not_lt.mpr hle
    constructor
    · show (prOf (update_prs cur prs ⟨nm, es, some r, some w⟩) nm).reps.value =
        (prOf prs nm).reps.value
      rw [prOf_update_self, hr1, if_neg hle2]
    · show (prOf (update_prs cur prs ⟨nm, es, some r, some w⟩) nm).reps.date =
        (prOf prs nm).reps.date
      rw [prOf_update_self, hr1, if_neg hle2]

/-- Witness for update_prs_weight_updates_first: after a record of 50 for 8
reps, a record of 60 for 5 reps raises the weight PR to 60 while the reps PR
stays 8, the value achieved at the lower weight. -/
theorem update_prs_weight_updates_first_witness :
    weightPRval (update_prs 0 [] exW50) (exW60.exercise) < 60 ∧
    weightPRval (update_prs 1 (update_prs 0 [] exW50) exW60) (exW60.exercise) = 60 ∧
    repsPRval (update_prs 1 (update_prs 0 [] exW50) exW60) (exW60.exercise) =
      repsPRval (update_prs 0 [] exW50) (exW60.exercise) :=
  ⟨by decide,
   (update_prs_weight_updates_first 1 (update_prs 0 [] exW50) exW60 60 5 rfl rfl (by decide)).1,
   ((update_prs_weight_updates_first 1 (update_prs 0 [] exW50) exW60 60 5 rfl rfl (by decide)).2.2.2 (by decide)).1⟩

/-! Lemmas about the PR replay of recalculate_prs over fully dated plans. -/

theorem replayDays_dated (days : List Day)
    (h : ∀ d ∈ days, d.date.isSome = true) (c1 c2 : Date) (p : PRMap) :
    (days.foldl replayDay (c1, p)).2 = (days.foldl replayDay (c2, p)).2 ∧
    (days ≠ [] → days.foldl replayDay (c1, p) = days.foldl replayDay (c2, p)) := by
  induction days generalizing c1 c2 p with
  | nil => exact ⟨rfl, fun hn => absurd rfl hn⟩
  | cons d rest ih =>
    obtain ⟨dd, hdd⟩ := Option.isSome_iff_exists.mp (h d (List.mem_cons_self d rest))
    have hstep : ∀ c : Date, replayDay (c, p) d =
        (dd, d.exercises.foldl (update_prs dd) p) := by
      intro c
      simp [replayDay, hdd]
    rw [List.foldl_cons, List.foldl_cons, hstep c1, hstep c2]
    exact ⟨rfl, fun _ => rfl⟩

theorem replayWeeks_dated (plan : Plan)
    (h : ∀ w ∈ plan, ∀ d ∈ w, d.date.isSome = true) (c1 c2 : Date) (p : PRMap) :
    (plan.foldl replayWeek (c1, p)).2 = (plan.foldl replayWeek (c2, p)).2 ∧
    ((plan.foldl replayWeek (c1, p)).1 = (plan.foldl replayWeek (c2, p)).1 ∨
      ((plan.foldl replayWeek (c1, p)).1 = c1 ∧ (plan.foldl replayWeek (c2, p)).1 = c2)) := by
  induction plan generalizing c1 c2 p with
  | nil => exact ⟨rfl, Or.inr ⟨rfl, rfl⟩⟩
  | cons w ws ih =>
    have hw : ∀ d ∈ w, d.date.isSome = true := h w (List.mem_cons_self w ws)
    have hws : ∀ w2 ∈ ws, ∀ d ∈ w2, d.date.isSome = true :=
      fun w2 hm => h w2 (List.mem_cons_of_mem w hm)
    cases w with
    | nil =>
      simp only [List.foldl_cons, replayWeek, List.foldl_nil]
      exact ih hws c1 c2 p
    | cons d ds =>
      have heq2 : replayWeek (c1, p) (d :: ds) = replayWeek (c2, p) (d :: ds) :=
        (replayDays_dated (d :: ds) hw c1 c2 p).2 (by simp)
      rw [List.foldl_cons, List.foldl_cons, heq2]
      exact ⟨rfl, Or.inl rfl⟩

/-- Counterexample to C3 as stated: on a plan whose first day has no stored
date, running recalculate_prs twice yields different PR state than running
it once (the second run replays the dateless day under the date left behind
by the first run). -/
theorem recalculate_prs_not_idempotent :
    (recalculate_prs (recalculate_prs sNoDate)).prs ≠ (recalculate_prs sNoDate).prs ∧
    weightPRdate (recalculate_prs sNoDate).prs (exW100.exercise) = some 5 ∧
    weightPRdate (recalculate_prs (recalculate_prs sNoDate)).prs (exW100.exercise) = some 17 := by
  decide

/-- C3 amended: recalculate_prs is idempotent on every plan in which each
day carries a stored date (the general claim fails only through the
current-date fallback used for dateless days). -/
theorem recalculate_prs_idempotent_dated (s : Planner) (h : AllDated s.workouts) :
    recalculate_prs (recalculate_prs s) = recalculate_prs s := by
  obtain ⟨ws, prs, cw, cd, c⟩ := s
  have key := replayWeeks_dated ws h
    ((ws.foldl replayWeek (c, initialize_prs ws)).1) c (initialize_prs ws)
  obtain ⟨hp, hc⟩ := key
  simp only [recalculate_prs]
  rcases hc with hc | ⟨hc1, hc2⟩
  · simp [hp, hc]
  · simp [hp, hc1, hc2]

/-- Witness for recalculate_prs_idempotent_dated at a fully dated planner. -/
theorem recalculate_prs_idempotent_dated_witness :
    AllDated sDated.workouts ∧
    recalculate_prs (recalculate_prs sDated) = recalculate_prs sDated :=
  ⟨by decide, recalculate_prs_idempotent_dated sDated (by decide)⟩

/-- Counterexample to C4 as stated: on a planner holding one dateless day
and current date 7, recalculate_prs stamps the replayed record with date 7
(the running current date), not with the epoch fallback 2000-01-01 that the
claim prescribes, so its result differs from the spec-following replay. -/
theorem recalculate_prs_uses_current_date_not_epoch :
    (recalculate_prs sUndated).prs ≠ recomputeSpecPRs sUndated.workouts ∧
    weightPRdate (recalculate_prs sUndated).prs (exW100.exercise) = some 7 ∧
    weightPRdate (recomputeSpecPRs sUndated.workouts) (exW100.exercise) = some epoch2000 := by
  decide

theorem replayDays_spec (days : List Day)
    (h : ∀ d ∈ days, d.date.isSome = true) (c : Date) (p : PRMap) :
    (days.foldl replayDay (c, p)).2 = days.foldl specRecordDay p := by
  induction days generalizing c p with
  | nil => rfl
  | cons d rest ih =>
    obtain ⟨dd, hdd⟩ := Option.isSome_iff_exists.mp (h d (List.mem_cons_self d rest))
    have hrest : ∀ d2 ∈ rest, d2.date.isSome = true :=
      fun d2 hm => h d2 (List.mem_cons_of_mem d hm)
    simp only [List.foldl_cons, replayDay, specRecordDay, hdd, Option.getD_some]
    exact ih hrest dd _

theorem replayWeeks_spec (plan : Plan)
    (h : ∀ w ∈ plan, ∀ d ∈ w, d.date.isSome = true) (c : Date) (p : PRMap) :
    (plan.foldl replayWeek (c, p)).2 = plan.foldl specRecordWeek p := by
  induction plan generalizing c p with
  | nil => rfl
  | cons w ws ih =>
    have hw : ∀ d ∈ w, d.date.isSome = true := h w (List.mem_cons_self w ws)
    have hws : ∀ w2 ∈ ws, ∀ d ∈ w2, d.date.isSome = true :=
      fun w2 hm => h w2 (List.mem_cons_of_mem w hm)
    rcases hq : w.foldl replayDay (c, p) with ⟨c2, p2⟩
    have hstep : replayWeek (c, p) w = (c2, p2) := hq
    rw [List.foldl_cons, List.foldl_cons, hstep, ih hws c2 p2]
    have hp2 : p2 = specRecordWeek p w := by
      have hd := replayDays_spec w hw c p
      rw [hq] at hd
      exact hd
    rw [hp2]

/-- C4 amended: recalculate_prs clears all PR state (its result is
independent of the prior PR map) and replays record for every exercise
across every week and day in plan order; the onDate of each day is its
stored date when present, and when every day has a stored date the result
coincides with the spec-following replay recomputeSpecPRs; a day with no
stored date instead inherits the running current date (the date of the last
preceding dated day, initially the pre-call current date), not the epoch
fallback 2000-01-01. -/
theorem recalculate_prs_replay :
    (∀ (s : Planner) (p : PRMap),
      (recalculate_prs { s with prs := p }).prs = (recalculate_prs s).prs) ∧
    (∀ s : Planner, AllDated s.workouts →
      (recalculate_prs s).prs = recomputeSpecPRs s.workouts) := by
  constructor
  · intro s p
    rfl
  · intro s h
    have := replayWeeks_spec s.workouts h s.current_date (initialize_prs s.workouts)
    simpa [recalculate_prs, recomputeSpecPRs] using this

/-- Witness for recalculate_prs_replay at a fully dated planner. -/
theorem recalculate_prs_replay_witness :
    AllDated sDated.workouts ∧
    (recalculate_prs sDated).prs = recomputeSpecPRs sDated.workouts :=
  ⟨by decide, recalculate_prs_replay.2 sDated (by decide)⟩

/-! Lemmas about the muscle engagement fold and the fatigue invariant. -/

theorem engagement_nodup :
    ∀ kv ∈ engagement_map, (kv.2.map Prod.fst).Nodup := by
  decide

theorem engagement_factors_nonneg :
    ∀ kv ∈ engagement_map, ∀ mf ∈ kv.2, 0 ≤ mf.2 := by
  simp only [engagement_map, List.forall_mem_cons, List.forall_mem_nil]
  norm_num

theorem recovery_rates_nonneg (m : Muscle) : 0 ≤ recovery_rates m := by
  cases m <;> norm_num [recovery_rates]

theorem muscleFatigue_eq_zero_of_none {mr : MuscleMap} {m : Muscle}
    (hm : alookup mr m = none) : muscleFatigue mr m = 0 := by
  simp [muscleFatigue, hm]

theorem alookup_engageMuscle_self (d : Date) (load : ℚ) (mr : MuscleMap)
    (m : Muscle) (f : ℚ) :
    alookup (engageMuscle d load mr (m, f)) m =
      some ⟨min fatigue_threshold (muscleFatigue mr m +
        min (load * f * fatigue_multiplier / 100) fatigue_threshold), some d⟩ := by
  cases hm : alookup mr m with
  | none =>
    have h1 : muscleFatigue (aset mr m (⟨0, some d⟩ : MuscleState)) m = 0 := by
      simp [muscleFatigue, alookup_aset_self]
    simp only [engageMuscle, hm]
    rw [alookup_aset_self, h1, muscleFatigue_eq_zero_of_none hm]
  | some st =>
    simp only [engageMuscle, hm]
    rw [alookup_aset_self]

theorem alookup_engageMuscle_ne (d : Date) (load : ℚ) (mr : MuscleMap)
    {m m2 : Muscle} (f : ℚ) (h : m2 ≠ m) :
    alookup (engageMuscle d load mr (m, f)) m2 = alookup mr m2 := by
  cases hm : alookup mr m with
  | none =>
    simp only [engageMuscle, hm]
    rw [alookup_aset_ne _ _ h, alookup_aset_ne _ _ h]
  | some st =>
    simp only [engageMuscle, hm]
    rw [alookup_aset_ne _ _ h]

theorem engage_fold_not_mem (d : Date) (load : ℚ) :
    ∀ (eng : List (Muscle × ℚ)) (mr : MuscleMap) (m : Muscle),
      m ∉ eng.map Prod.fst →
      alookup (eng.foldl (engageMuscle d load) mr) m = alookup mr m := by
  intro eng
  induction eng with
  | nil => intro mr m _; rfl
  | cons mf rest ih =>
    intro mr m hnm
    obtain ⟨m0, f0⟩ := mf
    have hne : m ≠ m0 := fun he => hnm (by simp [he])
    have hrest : m ∉ rest.map Prod.fst := fun hr => hnm (by simp [hr])
    rw [List.foldl_cons, ih _ m hrest, alookup_engageMuscle_ne d load mr f0 hne]

theorem engage_fold_mem (d : Date) (load : ℚ) :
    ∀ (eng : List (Muscle × ℚ)) (mr : MuscleMap) (m : Muscle) (f : ℚ),
      (m, f) ∈ eng → (eng.map Prod.fst).Nodup →
      alookup (eng.foldl (engageMuscle d load) mr) m =
        some ⟨min fatigue_threshold (muscleFatigue mr m +
          min (load * f * fatigue_multiplier / 100) fatigue_threshold), some d⟩ := by
  intro eng
  induction eng with
  | nil => intro mr m f hmem; exact absurd hmem (List.not_mem_nil _)
  | cons mf rest ih =>
    intro mr m f hmem hnd
    obtain ⟨m0, f0⟩ := mf
    rw [List.map_cons, List.nodup_cons] at hnd
    rcases List.mem_cons.mp hmem with hhead | htail
    · have hm : m = m0 := congrArg Prod.fst hhead
      have hf : f = f0 := congrArg Prod.snd hhead
      subst hm; subst hf
      have hnotin : m ∉ rest.map Prod.fst := hnd.1
      rw [List.foldl_cons, engage_fold_not_mem d load rest _ m hnotin,
        alookup_engageMuscle_self]
    · have hmkeys : m ∈ rest.map Prod.fst := List.mem_map_of_mem Prod.fst htail
      have hne : m ≠ m0 := fun he => hnd.1 (he ▸ hmkeys)
      have hmf : muscleFatigue (engageMuscle d load mr (m0, f0)) m = muscleFatigue mr m := by
        unfold muscleFatigue
        rw [alookup_engageMuscle_ne d load mr f0 hne]
      rw [List.foldl_cons, ih _ m f htail hnd.2, hmf]

theorem muscleFatigue_nonneg {mr : MuscleMap} (h : MuscleInv mr) (m : Muscle) :
    0 ≤ muscleFatigue mr m := by
  unfold muscleFatigue
  cases hm : alookup mr m with
  | none => simp
  | some st => simpa using (h m st hm).1

theorem MuscleInv_aset {mr : MuscleMap} (h : MuscleInv mr) {k : Muscle}
    {v : MuscleState} (hv : 0 ≤ v.fatigue ∧ v.fatigue ≤ fatigue_threshold) :
    MuscleInv (aset mr k v) := by
  intro m st hm
  by_cases hk : m = k
  · subst hk
    rw [alookup_aset_self] at hm
    injection hm with hh
    subst hh
    exact hv
  · rw [alookup_aset_ne _ _ hk] at hm
    exact h m st hm

theorem MuscleInv_engageMuscle {mr : MuscleMap} (h : MuscleInv mr)
    {load f : ℚ} (hl : 0 < load) (hf : 0 ≤ f) (d : Date) (m : Muscle) :
    MuscleInv (engageMuscle d load mr (m, f)) := by
  have hinc : 0 ≤ min (load * f * fatigue_multiplier / 100) fatigue_threshold := by
    apply le_min
    · apply div_nonneg
      · exact mul_nonneg (mul_nonneg (le_of_lt hl) hf) (by norm_num [fatigue_multiplier])
      · norm_num
    · norm_num [fatigue_threshold]
  have hbounds : ∀ mr1 : MuscleMap, MuscleInv mr1 →
      0 ≤ min fatigue_threshold (muscleFatigue mr1 m +
        min (load * f * fatigue_multiplier / 100) fatigue_threshold) ∧
      min fatigue_threshold (muscleFatigue mr1 m +
        min (load * f * fatigue_multiplier / 100) fatigue_threshold) ≤ fatigue_threshold := by
    intro mr1 h1
    constructor
    · exact le_min (by norm_num [fatigue_threshold])
        (add_nonneg (muscleFatigue_nonneg h1 m) hinc)
    · exact min_le_left _ _
  cases hm : alookup mr m with
  | none =>
    have h1 : MuscleInv (aset mr m (⟨0, some d⟩ : MuscleState)) :=
      MuscleInv_aset h ⟨le_refl 0, by norm_num [fatigue_threshold]⟩
    simp only [engageMuscle, hm]
    exact MuscleInv_aset h1 (hbounds _ h1)
  | some st =>
    simp only [engageMuscle, hm]
    exact MuscleInv_aset h (hbounds _ h)

theorem MuscleInv_engage_fold {load : ℚ} (hl : 0 < load) (d : Date) :
    ∀ (eng : List (Muscle × ℚ)) (mr : MuscleMap), MuscleInv mr →
      (∀ mf ∈ eng, 0 ≤ mf.2) →
      MuscleInv (eng.foldl (engageMuscle d load) mr) := by
  intro eng
  induction eng with
  | nil => intro mr h _; exact h
  | cons mf rest ih =>
    intro mr h hfs
    obtain ⟨m0, f0⟩ := mf
    rw [List.foldl_cons]
    exact ih _ (MuscleInv_engageMuscle h hl (hfs _ (List.mem_cons_self _ _)) d m0)
      (fun mf2 hm2 => hfs mf2 (List.mem_cons_of_mem _ hm2))

theorem MuscleInv_engage_muscles {mr : MuscleMap} (h : MuscleInv mr)
    (ex : Exercise) (d : Date) : MuscleInv (engage_muscles mr ex d) := by
  unfold engage_muscles
  cases hfm : firstMatch ex.exercise with
  | none => exact h
  | some kv =>
    show MuscleInv (if 0 < calculate_load ex
      then List.foldl (engageMuscle d (calculate_load ex)) mr kv.2 else mr)
    by_cases hl : 0 < calculate_load ex
    · rw [if_pos hl]
      exact MuscleInv_engage_fold hl d kv.2 mr h
        (engagement_factors_nonneg kv (List.mem_of_find?_eq_some hfm))
    · rw [if_neg hl]
      exact h

theorem MuscleInv_decay {mr : MuscleMap} (h : MuscleInv mr) (cur : Date) :
    MuscleInv (calculate_current_fatigue cur mr) := by
  intro m st hm
  unfold calculate_current_fatigue at hm
  rw [alookup_mapVals] at hm
  cases ho : alookup mr m with
  | none => rw [ho] at hm; simp at hm
  | some st0 =>
    rw [ho] at hm
    injection hm with hst
    subst hst
    obtain ⟨h0, h1⟩ := h m st0 ho
    cases hlw : st0.last_workout with
    | none => simp only [decayMuscle, hlw]; exact ⟨h0, h1⟩
    | some last =>
      simp only [decayMuscle, hlw]
      have hrec : 0 ≤ recovery_rates m * ((max 0 (cur - last) : Int) : ℚ) :=
        mul_nonneg (recovery_rates_nonneg m)
          (by exact_mod_cast le_max_left 0 (cur - last))
      refine ⟨le_max_left 0 _, max_le (by norm_num [fatigue_threshold]) ?_⟩
      calc st0.fatigue - recovery_rates m * ((max 0 (cur - last) : Int) : ℚ)
          ≤ st0.fatigue := sub_le_self _ hrec
        _ ≤ fatigue_threshold := h1

theorem MuscleInv_init : MuscleInv initialize_muscle_recovery := by
  intro m st hm
  have hkv := alookup_mem hm
  have hall : ∀ kv ∈ initialize_muscle_recovery, kv.2 = (⟨0, none⟩ : MuscleState) := by
    decide
  have hst : st = (⟨0, none⟩ : MuscleState) := hall (m, st) hkv
  rw [hst]
  norm_num [fatigue_threshold]

theorem MuscleInv_runOps : ∀ (ops : List FatigueOp) (mr : MuscleMap),
    MuscleInv mr → MuscleInv (runOps ops mr) := by
  intro ops
  induction ops with
  | nil => intro mr h; exact h
  | cons op rest ih =>
    intro mr h
    cases op with
    | engage ex d => exact ih _ (MuscleInv_engage_muscles h ex d)
    | decay d => exact ih _ (MuscleInv_decay h d)

theorem MuscleInv_update_recovery {mr : MuscleMap} (cur : Date)
    (h : MuscleInv mr)
    (hlast : ∀ m st, alookup mr m = some st →
      ∀ l, st.last_workout = some l → l ≤ cur) :
    MuscleInv (update_muscle_recovery cur mr) := by
  intro m st hm
  unfold update_muscle_recovery at hm
  rw [alookup_mapVals] at hm
  cases ho : alookup mr m with
  | none => rw [ho] at hm; simp at hm
  | some st0 =>
    rw [ho] at hm
    injection hm with hst
    subst hst
    obtain ⟨h0, h1⟩ := h m st0 ho
    cases hlw : st0.last_workout with
    | none => simp only [recoverMuscle, hlw]; exact ⟨h0, h1⟩
    | some last =>
      simp only [recoverMuscle, hlw]
      have hdays : (0 : ℚ) ≤ ((cur - last : Int) : ℚ) := by
        have := hlast m st0 ho last hlw
        exact_mod_cast sub_nonneg.mpr this
      have hrec : 0 ≤ recovery_rates m * ((cur - last : Int) : ℚ) :=
        mul_nonneg (recovery_rates_nonneg m) hdays
      refine ⟨le_max_right _ 0, max_le ?_ (by norm_num [fatigue_threshold])⟩
      calc st0.fatigue - recovery_rates m * ((cur - last : Int) : ℚ)
          ≤ st0.fatigue := sub_le_self _ hrec
        _ ≤ fatigue_threshold := h1

/-- C1 amended: starting from the reset state, any sequence of engage and
clamped-decay (calculate_current_fatigue) operations keeps the fatigue of
every tracked muscle in the closed interval from 0 to fatigue_threshold;
the unclamped decay update_muscle_recovery preserves those bounds provided
its date is not earlier than any recorded last engagement (without that
proviso it can exceed the threshold, see the counterexample); and either
decay applied when zero days have elapsed since the last engagement of a
muscle leaves its state unchanged. -/
theorem fatigue_bounds :
    (∀ ops : List FatigueOp, MuscleInv (runOps ops initialize_muscle_recovery)) ∧
    (∀ (cur : Date) (mr : MuscleMap), MuscleInv mr →
      (∀ m st, alookup mr m = some st →
        ∀ l, st.last_workout = some l → l ≤ cur) →
      MuscleInv (update_muscle_recovery cur mr)) ∧
    (∀ (cur : Date) (m : Muscle) (f : ℚ), 0 ≤ f →
      decayMuscle cur m ⟨f, some cur⟩ = ⟨f, some cur⟩ ∧
      recoverMuscle cur m ⟨f, some cur⟩ = ⟨f, some cur⟩) := by
  refine ⟨fun ops => MuscleInv_runOps ops _ MuscleInv_init,
    fun cur mr h hlast => MuscleInv_update_recovery cur h hlast,
    fun cur m f hf => ⟨?_, ?_⟩⟩
  · simp [decayMuscle, max_eq_right hf]
  · simp [recoverMuscle, max_eq_left hf]

/-- Witness for fatigue_bounds: the chest state after one clamped decay on
the reset map satisfies the bounds, and both decays at zero elapsed days fix
a concrete state. -/
theorem fatigue_bounds_witness :
    (0 ≤ (MuscleState.mk 0 none).fatigue ∧
      (MuscleState.mk 0 none).fatigue ≤ fatigue_threshold) ∧
    decayMuscle 7 Muscle.chest ⟨1, some 7⟩ = ⟨1, some 7⟩ ∧
    recoverMuscle 7 Muscle.chest ⟨1, some 7⟩ = ⟨1, some 7⟩ :=
  ⟨fatigue_bounds.1 [.decay 3] Muscle.chest ⟨0, none⟩ (by decide),
   (fatigue_bounds.2.2 7 Muscle.chest 1 (by decide)).1,
   (fatigue_bounds.2.2 7 Muscle.chest 1 (by decide)).2⟩

/-- Counterexample to C1 as stated: engaging the chest to the fatigue cap
with a heavy bench press dated day 10 and then applying the decay
update_muscle_recovery dated day 5 (its elapsed days are not clamped at 0)
drives the chest fatigue to 175, beyond FATIGUE_MAX = 100. -/
theorem fatigue_unclamped_decay_exceeds_threshold :
    muscleFatigue (update_muscle_recovery 5
      (runOps [.engage exHeavy 10] initialize_muscle_recovery)) Muscle.chest = 175 ∧
    ¬ muscleFatigue (update_muscle_recovery 5
      (runOps [.engage exHeavy 10] initialize_muscle_recovery)) Muscle.chest
        ≤ fatigue_threshold := by
  have hload : calculate_load exHeavy = 1000000 := by
    norm_num [calculate_load, exHeavy]
  have hfm : firstMatch exHeavy.exercise =
      some ("bench press", [(Muscle.chest, 8/10), (Muscle.triceps, 2/10), (Muscle.shoulders, 2/10)]) := by
    rfl
  have heng : alookup (engage_muscles initialize_muscle_recovery exHeavy 10) Muscle.chest =
      some ⟨min fatigue_threshold (muscleFatigue initialize_muscle_recovery Muscle.chest +
        min (calculate_load exHeavy * (8/10) * fatigue_multiplier / 100) fatigue_threshold),
        some 10⟩ := by
    unfold engage_muscles
    rw [hfm]
    show alookup (if 0 < calculate_load exHeavy
      then List.foldl (engageMuscle 10 (calculate_load exHeavy)) initialize_muscle_recovery
        [(Muscle.chest, 8/10), (Muscle.triceps, 2/10), (Muscle.shoulders, 2/10)]
      else initialize_muscle_recovery) Muscle.chest = _
    rw [if_pos (by rw [hload]; norm_num)]
    exact engage_fold_mem 10 (calculate_load exHeavy) _ _ Muscle.chest (8/10)
      (List.mem_cons_self _ _) (by decide)
  have hzero : muscleFatigue initialize_muscle_recovery Muscle.chest = 0 := by
    simp [muscleFatigue, initialize_muscle_recovery, alookup]
  have hval : min fatigue_threshold (muscleFatigue initialize_muscle_recovery Muscle.chest +
      min (calculate_load exHeavy * (8/10) * fatigue_multiplier / 100) fatigue_threshold) =
      (100 : ℚ) := by
    rw [hzero, hload]
    norm_num [fatigue_threshold, fatigue_multiplier]
  have hchest : muscleFatigue (update_muscle_recovery 5
      (runOps [.engage exHeavy 10] initialize_muscle_recovery)) Muscle.chest = 175 := by
    show muscleFatigue (update_muscle_recovery 5
      (engage_muscles initialize_muscle_recovery exHeavy 10)) Muscle.chest = 175
    unfold muscleFatigue update_muscle_recovery
    rw [alookup_mapVals, heng, hval]
    norm_num [recoverMuscle, recovery_rates]
  refine ⟨hchest, ?_⟩
  rw [hchest]
  norm_num [fatigue_threshold]

/-- C5: engage_muscles looks up the first engagement-map key in table order
that is a substring of the lowercased exercise name; with no matching key,
or with a non-positive load, the muscle map is unchanged; with a match and a
positive load, every muscle of the matched entry gets fatigue
min(FATIGUE_MAX, currentFatigue + min(load * fraction * FATIGUE_MULTIPLIER
/ 100, FATIGUE_MAX)) and last-engagement date onDate. -/
theorem engage_muscles_spec (mr : MuscleMap) (ex : Exercise) (d : Date) :
    (firstMatch ex.exercise = none → engage_muscles mr ex d = mr) ∧
    (calculate_load ex ≤ 0 → engage_muscles mr ex d = mr) ∧
    (∀ k eng, firstMatch ex.exercise = some (k, eng) → 0 < calculate_load ex →
      ∀ m f, (m, f) ∈ eng →
        alookup (engage_muscles mr ex d) m =
          some ⟨min fatigue_threshold (muscleFatigue mr m +
            min (calculate_load ex * f * fatigue_multiplier / 100) fatigue_threshold),
            some d⟩) := by
  refine ⟨fun h => ?_, fun h => ?_, fun k eng hfm hl m f hmem => ?_⟩
  · unfold engage_muscles
    rw [h]
  · unfold engage_muscles
    cases hfm : firstMatch ex.exercise with
    | none => rfl
    | some kv =>
      show (if 0 < calculate_load ex
        then List.foldl (engageMuscle d (calculate_load ex)) mr kv.2 else mr) = mr
      rw [if_neg (not_lt.mpr h)]
  · unfold engage_muscles
    rw [hfm]
    show alookup (if 0 < calculate_load ex
      then List.foldl (engageMuscle d (calculate_load ex)) mr eng else mr) m = _
    rw [if_pos hl]
    exact engage_fold_mem d (calculate_load ex) eng mr m f hmem
      (engagement_nodup (k, eng) (List.mem_of_find?_eq_some hfm))

/-- Witness for engage_muscles_spec: Bench Press (3 sets of 5 at 100)
matches the first table key and engages the chest with fraction 0.8 on the
reset map at date 0. -/
theorem engage_muscles_spec_witness :
    firstMatch exBench.exercise =
      some ("bench press", [(Muscle.chest, 8/10), (Muscle.triceps, 2/10), (Muscle.shoulders, 2/10)]) ∧
    0 < calculate_load exBench ∧
    alookup (engage_muscles initialize_muscle_recovery exBench 0) Muscle.chest =
      some ⟨min fatigue_threshold (muscleFatigue initialize_muscle_recovery Muscle.chest +
        min (calculate_load exBench * (8/10) * fatigue_multiplier / 100) fatigue_threshold),
        some 0⟩ :=
  ⟨rfl, by norm_num [calculate_load, exBench],
   (engage_muscles_spec initialize_muscle_recovery exBench 0).2.2 ("bench press") _ rfl
     (by norm_num [calculate_load, exBench]) Muscle.chest (8/10) (List.mem_cons_self _ _)⟩
